import Mathlib

/-!
Shallow embedding of circuits/lib/irc.py (an IRC protocol engine written in
Python 2) and verification of its specification claims.

Python byte strings are modelled as lists of characters (Str), Python runtime
exceptions as an explicit error type (PyErr) with fallible code returning
Except, and the dynamic _info dictionary as a record of optional fields.
Events are modelled as the channel tag they are pushed on together with the
list of positional constructor arguments, mirroring the positional Event
classes of the source.
-/

namespace Circuits

/-- Characters of a Python 2 byte string. -/
abbrev Str := List Char

/-- Python runtime exceptions that the translated code can raise. -/
inductive PyErr where
  | indexError
  | valueError
  | typeError
  | attributeError
deriving DecidableEq, Repr

/-- A positional argument value of an Event: a string, an integer, the Python
None, or the wall-clock float produced by time.time() (kept opaque). -/
inductive V where
  | s : Str → V
  | i : Int → V
  | vNone : V
  | clock : V
deriving DecidableEq, Repr

/-- An event as pushed by the component: the channel tag plus the positional
arguments of the Event constructor. -/
abbrev Ev := Str × List V

/-- The session dictionary self._info, with exactly the keys the source ever
writes; absent key = none. -/
structure Info where
  nick : Option Str := none
  ident : Option Str := none
  host : Option Str := none
  server : Option Str := none
  serverVersion : Option Str := none
  network : Option Str := none
  name : Option Str := none
deriving DecidableEq, Repr

/-- The fresh session state of a new connection (empty _info dictionary). -/
def info0 : Info := {}

deriving instance DecidableEq for Except

/-! ### Python string primitives -/

/-- Prepend a character to the first piece of a split result
(helper for the splitting functions below). -/
def consHead (c : Char) : List Str → List Str
  | [] => [[c]]
  | p :: ps => (c :: p) :: ps

/-- Python s.split(sep) for a single explicit separator character:
splitting the empty string gives one empty piece, and adjacent separators
give empty pieces. -/
def splitOnChar (sep : Char) : Str → List Str
  | [] => [[]]
  | a :: rest =>
    if a = sep then [] :: splitOnChar sep rest
    else consHead a (splitOnChar sep rest)

/-- Python sep.join(pieces) for a single separator character. -/
def joinWith (sep : Char) : List Str → Str
  | [] => []
  | [p] => p
  | p :: ps => p ++ sep :: joinWith sep ps

/-- Python s.lower(); the source only ever lower-cases ASCII protocol data. -/
def pyLower (s : Str) : Str := s.map Char.toLower

/-- Python int(s) for the token strings of this protocol (an optional sign
followed by decimal digits); anything else raises ValueError. -/
def pyInt (s : Str) : Except PyErr Int :=
  match s with
  | '-' :: ds =>
    if ds ≠ [] ∧ ds.all Char.isDigit then
      .ok (-(ds.foldl (fun a c => a * 10 + (c.toNat - 48)) 0 : Nat))
    else .error .valueError
  | '+' :: ds =>
    if ds ≠ [] ∧ ds.all Char.isDigit then
      .ok ((ds.foldl (fun a c => a * 10 + (c.toNat - 48)) 0 : Nat))
    else .error .valueError
  | ds =>
    if ds ≠ [] ∧ ds.all Char.isDigit then
      .ok ((ds.foldl (fun a c => a * 10 + (c.toNat - 48)) 0 : Nat))
    else .error .valueError

/-- Python s.rstrip(","): remove every trailing comma. -/
def rstripComma (s : Str) : Str :=
  (s.reverse.dropWhile (fun c => c == ',')).reverse

/-- Python tokens[i]: the i-th element, or an IndexError. -/
def tok (ts : List Str) (i : Nat) : Except PyErr Str :=
  match ts[i]? with
  | some t => .ok t
  | none => .error .indexError

/-- Match a literal pattern at the start of a string, returning the rest
(the building block for the anchored regular expressions of the source). -/
def dropExact : Str → Str → Option Str
  | [], s => some s
  | _ :: _, [] => none
  | c :: p, a :: s => if a = c then dropExact p s else none

/-- Candidate lengths for a greedy `.*` group, longest first. -/
def descRange (n : Nat) : List Nat := (List.range (n + 1)).reverse

/-! ### Supporting functions of the source module -/

/-- Source splitLines: re.split of the buffer plus the new chunk at the
delimiter regular expression carriage-return-optional-newline.  The regex
scans left to right; every match is a newline together with the immediately
preceding carriage return when there is one. -/
def lineSplit : Str → List Str
  | [] => [[]]
  | '\r' :: '\n' :: rest => [] :: lineSplit rest
  | '\n' :: rest => [] :: lineSplit rest
  | c :: rest => consHead c (lineSplit rest)

/-- Source splitLines(s, buffer) -> lines, buffer: all fully delimited
segments of buffer + s, and the trailing non-delimited remainder. -/
def splitLines (s buffer : Str) : List Str × Str :=
  let lines := lineSplit (buffer ++ s)
  (lines.dropLast, lines.getLastD [])

/-- Source strip(s, color=False): drop one leading colon, and with color
also remove every 0x01 and 0x02 byte. -/
def strip (s : Str) (color : Bool := false) : Str :=
  let s1 := match s with
    | ':' :: rest => rest
    | t => t
  if color then s1.filter (fun c => !(c == '\x01') && !(c == '\x02')) else s1

/-- Source sourceSplit: re.match of nick-bang-ident-at-host against the
source string, where the nick group is a non-bang character followed by a
greedy run.  Greedy backtracking picks the last bang that still leaves an at
sign after it, then the last at sign after that bang; a string that does not
match is returned whole as a bare nick. -/
def sourceSplit (source : Str) : Str × Option Str × Option Str :=
  match source with
  | [] => (source, none, none)
  | c0 :: _ =>
    if c0 = '!' then (source, none, none)
    else
      match (descRange (source.length - 1)).find?
          (fun j => source.getD j ' ' == '@') with
      | none => (source, none, none)
      | some j =>
        match (descRange (source.length - 1)).find?
            (fun i => i < j && source.getD i ' ' == '!') with
        | none => (source, none, none)
        | some i =>
          (source.take i,
           some ((source.drop (i + 1)).take (j - i - 1)),
           some (source.drop (j + 1)))

/-! ### The three greeting regular expressions of the welcome numeric -/

/-- Tail of the first welcome pattern after the greedy network group: a
space, the alternation IRC-or-Internet-Relay-optionally-Chat (tried in the
backtracking order of the regex engine), the literal Network, then the user
group to the end. -/
def welcomeTail1 (rest : Str) : Option Str :=
  match dropExact " IRC Network ".data rest with
  | some u => some u
  | none =>
    match dropExact " Internet Relay Chat Network ".data rest with
    | some u => some u
    | none => dropExact " Internet Relay Network ".data rest

/-- First welcome pattern: Welcome to the, greedy network group, the
IRC-alternation, Network, user.  Returns (network, user). -/
def reWelcome1 (msg : Str) : Option (Str × Str) :=
  match dropExact "Welcome to the ".data msg with
  | none => none
  | some body =>
    (descRange body.length).findSome? fun k =>
      (welcomeTail1 (body.drop k)).map fun u => (body.take k, u)

/-- Second welcome pattern: Welcome to the Internet Relay Network, then the
user group.  Its group dictionary has no network key. -/
def reWelcome2 (msg : Str) : Option Str :=
  dropExact "Welcome to the Internet Relay Network ".data msg

/-- Third welcome pattern: Welcome to the, greedy network group, the literal
IRC Network comma, then the user group.  Returns (network, user). -/
def reWelcome3 (msg : Str) : Option (Str × Str) :=
  match dropExact "Welcome to the ".data msg with
  | none => none
  | some body =>
    (descRange body.length).findSome? fun k =>
      (dropExact " IRC Network, ".data (body.drop k)).map
        fun u => (body.take k, u)

/-- Classification test of the numeric branch: re.match of one-or-more
digits against the second token, which succeeds exactly when the token
starts with a decimal digit (the match is anchored at the start only). -/
def reMatchDigits : Str → Bool
  | [] => false
  | c :: _ => c.isDigit

/-! ### Numeric reply constants used by the parser -/

/-- Source RPL_WELCOME. -/
def RPL_WELCOME : Int := 1

/-- Source RPL_YOURHOST. -/
def RPL_YOURHOST : Int := 2

/-! ### Outgoing command formatters (each returns the string handed to
ircRAW; the transport appends the carriage-return-newline delimiter) -/

/-- Source ircPRIVMSG. -/
def ircPRIVMSG (target message : Str) (source : Option Str := none) : Str :=
  match source with
  | none => "PRIVMSG ".data ++ target ++ " :".data ++ message
  | some src =>
    ":".data ++ src ++ " PRIVMSG ".data ++ target ++ " :".data ++ message

/-- Source ircNOTICE. -/
def ircNOTICE (target message : Str) (source : Option Str := none) : Str :=
  match source with
  | none => "NOTICE ".data ++ target ++ " :".data ++ message
  | some src =>
    ":".data ++ src ++ " NOTICE ".data ++ target ++ " :".data ++ message

/-- Source ircJOIN. -/
def ircJOIN (channel : Str) (key : Option Str := none)
    (source : Option Str := none) : Str :=
  match source with
  | none =>
    match key with
    | none => "JOIN ".data ++ channel
    | some k => "JOIN ".data ++ channel ++ " ".data ++ k
  | some src =>
    match key with
    | none => ":".data ++ src ++ " JOIN ".data ++ channel
    | some k => ":".data ++ src ++ " JOIN ".data ++ channel ++ " ".data ++ k

/-- Source ircPART. -/
def ircPART (channel : Str) (message : Str := [])
    (source : Option Str := none) : Str :=
  match source with
  | none => "PART ".data ++ channel ++ " :".data ++ message
  | some src =>
    ":".data ++ src ++ " PART ".data ++ channel ++ " :".data ++ message

/-- Source ircQUIT. -/
def ircQUIT (message : Str := []) (source : Option Str := none) : Str :=
  match source with
  | none => "QUIT :".data ++ message
  | some src => ":".data ++ src ++ " QUIT :".data ++ message

/-! ### ircNICK and its reduce-over-optionals guard -/

/-- Python objects that take part in the reduce expression of ircNICK. -/
inductive PyObj where
  | vNone : PyObj
  | vBool : Bool → PyObj
  | vInt : Int → PyObj
  | vStr : Str → PyObj
deriving DecidableEq, Repr

/-- Python x is not None. -/
def isNotNone : PyObj → Bool
  | .vNone => false
  | _ => true

/-- The Python object for an optional integer argument. -/
def objOfIntO : Option Int → PyObj
  | none => .vNone
  | some n => .vInt n

/-- The Python object for an optional string argument. -/
def objOfStrO : Option Str → PyObj
  | none => .vNone
  | some s => .vStr s

/-- The lambda of the reduce in ircNICK: x is not None and y is not None
(both operands of the Python and are genuine booleans here, so the result is
the boolean conjunction). -/
def redStep (x y : PyObj) : PyObj := .vBool (isNotNone x && isNotNone y)

/-- Python truthiness, as tested by the if around the reduce result. -/
def truthy : PyObj → Bool
  | .vNone => false
  | .vBool b => b
  | .vInt n => n != 0
  | .vStr s => !s.isEmpty

/-- Python percent-s formatting of a possibly-None string: None prints as
the four letters None. -/
def pyFmtS : Option Str → Str
  | none => "None".data
  | some s => s

/-- Python percent-d formatting of a possibly-None integer: None raises
TypeError. -/
def pyFmtD : Option Int → Except PyErr Str
  | none => .error .typeError
  | some n => .ok (toString n).data

/-- Source ircNICK: guarded by reduce(lambda x, y: x is not None and y is
not None, [idle, signon, ident, host, server, hops, name]); the guarded
branch formats the extended NICK line, the other branch the short one. -/
def ircNICK (nick : Str) (idle : Option Int := none)
    (signon : Option Int := none) (ident : Option Str := none)
    (host : Option Str := none) (server : Option Str := none)
    (hops : Option Int := none) (name : Option Str := none) :
    Except PyErr Str :=
  let items := [objOfIntO idle, objOfIntO signon, objOfStrO ident,
                objOfStrO host, objOfStrO server, objOfIntO hops,
                objOfStrO name]
  if truthy ((items.drop 1).foldl redStep (items.headD .vNone)) then do
    let di ← pyFmtD idle
    let ds ← pyFmtD signon
    let dh ← pyFmtD hops
    .ok ("NICK ".data ++ nick ++ " ".data ++ di ++ " ".data ++ ds
      ++ " ".data ++ pyFmtS ident ++ " ".data ++ pyFmtS host
      ++ " ".data ++ pyFmtS server ++ " ".data ++ dh
      ++ " :".data ++ pyFmtS name)
  else
    .ok ("NICK ".data ++ nick)

/-- Source ircMODE: every branch calls ircMODE again (instead of ircRAW),
so the call recurses on the freshly formatted string with no channel and no
source.  The fuel counts remaining recursion depth; none models the
RecursionError when it is exhausted, and a some result would be the string
eventually written.  No branch ever returns one. -/
def ircMODE : Nat → Str → Option Str → Option Str → Option Str
  | 0, _, _, _ => none
  | fuel + 1, modes, channel, source =>
    match source with
    | none =>
      match channel with
      | none => ircMODE fuel ("MODE :".data ++ modes) none none
      | some ch =>
        ircMODE fuel ("MODE ".data ++ ch ++ " :".data ++ modes) none none
    | some src =>
      match channel with
      | none =>
        ircMODE fuel (":".data ++ src ++ " MODE :".data ++ modes) none none
      | some ch =>
        ircMODE fuel
          (":".data ++ src ++ " MODE ".data ++ ch ++ " :".data ++ modes)
          none none

/-! ### Inbound processing -/

/-- Source onREAD: append the chunk to the buffer, split off the complete
lines, push one Raw event per line and retain the remainder. -/
def onREAD (data buffer : Str) : List Ev × Str :=
  let p := splitLines data buffer
  (p.1.map (fun l => ("raw".data, [V.s l])), p.2)

/-- Welcome bookkeeping shared by the three greeting patterns: network is
set from the group dictionary with empty-string default, the user group is
split into nick, ident, host; nick is always stored, ident and host only
when present. -/
def welcomeUpdate (info : Info) (net : Option Str) (user : Str) : Info :=
  let p := sourceSplit user
  { info with
    network := some (net.getD []),
    nick := some p.1,
    ident := match p.2.1 with | some x => some x | none => info.ident,
    host := match p.2.2 with | some x => some x | none => info.host }

/-- The RPL_WELCOME handling of onRAW: try the three greeting patterns in
order; when all fail, m is None and m.groupdict() raises AttributeError. -/
def numericWelcome (info : Info) (message : Str) : Except PyErr Info :=
  match reWelcome1 message with
  | some (net, user) => .ok (welcomeUpdate info (some net) user)
  | none =>
    match reWelcome2 message with
    | some user => .ok (welcomeUpdate info none user)
    | none =>
      match reWelcome3 message with
      | some (net, user) => .ok (welcomeUpdate info (some net) user)
      | none => .error .attributeError

/-- The RPL_YOURHOST handling of onRAW: re-tokenize the message and store
the announced server (with trailing commas stripped) and server version. -/
def numericYourhost (info : Info) (message : Str) : Except PyErr Info := do
  let ts := splitOnChar ' ' message
  let t3 ← tok ts 3
  let t6 ← tok ts 6
  .ok { info with server := some (rstripComma t3),
                  serverVersion := some t6 }

/-- Source onRAW: tokenize the line on single spaces and dispatch on the
first or second token, producing the pushed events and the updated session
state, or the Python exception the source would raise.  The now argument
stands for the time.time() value read in the prefixed NICK branch. -/
def onRAW (info : Info) (now : V) (line : Str) :
    Except PyErr (List Ev × Info) := do
  let tokens := splitOnChar ' ' line
  let t0 := tokens.headD []
  if t0 = "PING".data then do
    let t1 ← tok tokens 1
    .ok ([("ping".data, [V.s (pyLower (strip t1))])], info)
  else if t0 = "NICK".data then do
    let t1 ← tok tokens 1
    let t2 ← tok tokens 2
    let n2 ← pyInt t2
    let t3 ← tok tokens 3
    let n3 ← pyInt t3
    let t4 ← tok tokens 4
    let t5 ← tok tokens 5
    let t6 ← tok tokens 6
    .ok ([("newnick".data,
      [V.s (pyLower t1), V.i n2, V.i n3, V.s (pyLower t4),
       V.s (pyLower t5), V.s (pyLower t6),
       V.s (strip (joinWith ' ' (tokens.drop 8)))])], info)
  else if t0 = "TOPIC".data then do
    let t1 ← tok tokens 1
    let t2 ← tok tokens 2
    let t3 ← tok tokens 3
    let n3 ← pyInt t3
    .ok ([("topic".data,
      [V.s t1, V.s t2, V.i n3,
       V.s (strip (joinWith ' ' (tokens.drop 4)))])], info)
  else if t0 = "NETINFO".data then do
    let t1 ← tok tokens 1
    let n1 ← pyInt t1
    let t2 ← tok tokens 2
    let n2 ← pyInt t2
    let t3 ← tok tokens 3
    let t4 ← tok tokens 4
    let t5 ← tok tokens 5
    let t6 ← tok tokens 6
    let t7 ← tok tokens 7
    .ok ([("netinfo".data,
      [V.i n1, V.i n2, V.s t3, V.s t4, V.s t5, V.s t6, V.s t7,
       V.s (strip (joinWith ' ' (tokens.drop 8)))])], info)
  else do
    let t1 ← tok tokens 1
    if reMatchDigits t1 then do
      let source := (sourceSplit (strip (pyLower t0))).1
      let t2 ← tok tokens 2
      let target := pyLower t2
      let numeric ← pyInt t1
      let t3 ← tok tokens 3
      let argMessage :=
        if t3.length > 1 then
          if t3.headD ' ' = ':' then
            (none, strip (joinWith ' ' (tokens.drop 3)))
          else (some t3, strip (joinWith ' ' (tokens.drop 4)))
        else (none, strip (joinWith ' ' (tokens.drop 4)))
      let info2 ←
        if numeric = RPL_WELCOME then numericWelcome info argMessage.2
        else if numeric = RPL_YOURHOST then numericYourhost info argMessage.2
        else .ok info
      .ok ([("numeric".data,
        [V.s source, V.s target, V.i numeric,
         (match argMessage.1 with | some a => V.s a | none => V.vNone),
         V.s argMessage.2])], info2)
    else if t1 = "PRIVMSG".data then do
      let source := (sourceSplit (strip (pyLower t0))).1
      let t2 ← tok tokens 2
      let target := pyLower t2
      let message := strip (joinWith ' ' (tokens.drop 3))
      if message ≠ [] then
        -- the source tests message[0] == "", comparing the one-character
        -- string at index 0 with the empty string
        if message.take 1 = ([] : Str) then do
          let ctokens := splitOnChar ' ' (strip message true)
          let ty := pyLower (ctokens.headD [])
          let cmsg := joinWith ' ' (ctokens.drop 1)
          .ok ([("ctcp".data,
            [V.s source, V.s target, V.s ty, V.s cmsg])], info)
        else
          .ok ([("message".data, [V.s source, V.s target, V.s message])],
            info)
      else
        .ok ([("message".data, [V.s source, V.s target, V.s message])],
          info)
    else if t1 = "NOTICE".data then do
      let source := (sourceSplit (strip (pyLower t0))).1
      let t2 ← tok tokens 2
      let target := pyLower t2
      let message := strip (joinWith ' ' (tokens.drop 3))
      .ok ([("notice".data, [V.s source, V.s target, V.s message])], info)
    else if t1 = "JOIN".data then do
      let source := (sourceSplit (strip (pyLower t0))).1
      let t2 ← tok tokens 2
      let channels := pyLower (strip t2)
      .ok ((splitOnChar ',' channels).map
        (fun ch => ("join".data, [V.s source, V.s ch])), info)
    else if t1 = "PART".data then do
      let source := (sourceSplit (strip (pyLower t0))).1
      let t2 ← tok tokens 2
      let channel := pyLower (strip t2)
      let message := strip (joinWith ' ' (tokens.drop 3))
      .ok ([("part".data, [V.s source, V.s channel, V.s message])], info)
    else if t1 = "QUIT".data then do
      let source := (sourceSplit (strip (pyLower t0))).1
      let message := strip (joinWith ' ' (tokens.drop 2))
      .ok ([("quit".data, [V.s source, V.s message])], info)
    else if t1 = "NICK".data then do
      let source := (sourceSplit (strip (pyLower t0))).1
      let t2 ← tok tokens 2
      let newNick := pyLower (strip t2)
      let info2 :=
        match info.nick with
        | some n =>
          if pyLower source = pyLower n then { info with nick := some newNick }
          else info
        | none => info
      let ctime ←
        if tokens.length = 4 then do
          let t3 ← tok tokens 3
          pure (V.s (strip t3))
        else pure now
      .ok ([("nick".data, [V.s source, V.s newNick, ctime])], info2)
    else if t1 = "MOTD".data then do
      let source := (sourceSplit (strip (pyLower t0))).1
      let t2 ← tok tokens 2
      .ok ([("motd".data, [V.s source, V.s (pyLower (strip t2))])], info)
    else
      .ok ([], info)

/-! ### Chunked feeding of the framer (for the chunking-invariance claim) -/

/-- Feed a list of chunks through splitLines one after the other, starting
from the given buffer, collecting every emitted line in order together with
the final buffer. -/
def feedChunks (buffer : Str) : List Str → List Str × Str
  | [] => ([], buffer)
  | c :: cs =>
    let p := splitLines c buffer
    let q := feedChunks p.2 cs
    (p.1 ++ q.1, q.2)

/-- Spec-side description for the framing-buffer claim (modelled from the
claim wording, not from the source): the text after the last newline of a
string. -/
def specAfterLastNewline : Str → Str
  | [] => []
  | c :: rest =>
    if '\n' ∈ rest then specAfterLastNewline rest
    else if c = '\n' then rest
    else c :: rest

end Circuits

namespace Circuits

/-! ### List helper lemmas -/

theorem getLastD_cons_of_ne_nil {α : Type} (a d : α) (l : List α)
    (h : l ≠ []) : (a :: l).getLastD d = l.getLastD d := by
  cases l with
  | nil => exact absurd rfl h
  | cons b bs =>
    rw [List.getLastD_cons d a (b :: bs), List.getLastD_cons a b bs,
      List.getLastD_cons d b bs]

theorem getLastD_append {α : Type} (xs ys : List α) (d : α) (h : ys ≠ []) :
    (xs ++ ys).getLastD d = ys.getLastD d := by
  induction xs with
  | nil => rfl
  | cons x xs ih =>
    rw [List.cons_append,
      getLastD_cons_of_ne_nil _ _ _ (fun hc => h (List.append_eq_nil.mp hc).2),
      ih]

/-! ### Lemmas about lineSplit -/

theorem consHead_cons (c : Char) (p : Str) (ps : List Str) :
    consHead c (p :: ps) = (c :: p) :: ps := rfl

theorem lineSplit_cons_other (c : Char) (rest : Str) (h2 : c ≠ '\n')
    (h1 : c = '\r' → rest.head? ≠ some '\n') :
    lineSplit (c :: rest) = consHead c (lineSplit rest) := by
  by_cases hc : c = '\r'
  · subst hc
    cases rest with
    | nil => rfl
    | cons b rs =>
      have hb : b ≠ '\n' := by
        intro h
        exact h1 rfl (by rw [h]; rfl)
      simp [lineSplit, hb]
  · simp [lineSplit, h2, hc]

theorem lineSplit_cons_case4 (c : Char) (rest : Str)
    (h1 : ∀ rest1, c = '\r' → rest = '\n' :: rest1 → False)
    (h2 : c = '\n' → False) :
    lineSplit (c :: rest) = consHead c (lineSplit rest) := by
  apply lineSplit_cons_other c rest h2
  intro hc hh
  cases rest with
  | nil => simp at hh
  | cons b rs =>
    simp at hh
    exact h1 rs hc (by rw [hh])

theorem lineSplit_ne_nil (s : Str) : lineSplit s ≠ [] := by
  induction s using lineSplit.induct with
  | case1 => simp [lineSplit]
  | case2 rest ih => simp [lineSplit]
  | case3 rest ih => simp [lineSplit]
  | case4 c rest h1 h2 ih =>
    rw [lineSplit_cons_case4 c rest h1 h2]
    rcases hq : lineSplit rest with _ | ⟨q, qs⟩
    · exact absurd hq ih
    · simp [consHead]

theorem lineSplit_singleton {s p : Str} (h : lineSplit s = [p]) : p = s := by
  induction s using lineSplit.induct generalizing p with
  | case1 =>
    simp [lineSplit] at h
    exact h
  | case2 rest ih =>
    simp [lineSplit] at h
    exact absurd h.2 (lineSplit_ne_nil rest)
  | case3 rest ih =>
    simp [lineSplit] at h
    exact absurd h.2 (lineSplit_ne_nil rest)
  | case4 c rest h1 h2 ih =>
    rw [lineSplit_cons_case4 c rest h1 h2] at h
    rcases hq : lineSplit rest with _ | ⟨q, qs⟩
    · exact absurd hq (lineSplit_ne_nil rest)
    · rw [hq, consHead_cons] at h
      simp at h
      rw [← h.1, ih (show lineSplit rest = [q] by rw [hq, h.2])]

theorem head_ne_newline_of_not_mem {s : Str} (h : '\n' ∉ s) :
    s.head? ≠ some '\n' := by
  cases s with
  | nil => simp
  | cons b rs =>
    simp
    intro hb
    exact h (by rw [hb]; exact List.mem_cons_self _ _)

theorem lineSplit_of_no_newline {s : Str} (h : '\n' ∉ s) :
    lineSplit s = [s] := by
  induction s with
  | nil => rfl
  | cons c rest ih =>
    have hc : c ≠ '\n' := fun hh => h (by rw [hh]; exact List.mem_cons_self _ _)
    have hrest : '\n' ∉ rest := fun hh => h (List.mem_cons_of_mem _ hh)
    rw [lineSplit_cons_other c rest hc
        (fun _ => head_ne_newline_of_not_mem hrest), ih hrest]
    rfl

theorem lineSplit_append (A B : Str) :
    lineSplit (A ++ B) =
      (lineSplit A).dropLast
        ++ lineSplit ((lineSplit A).getLastD [] ++ B) := by
  induction A using lineSplit.induct with
  | case1 => simp [lineSplit]
  | case2 rest ih =>
    show lineSplit ('\r' :: '\n' :: (rest ++ B)) = _
    rcases hq : lineSplit rest with _ | ⟨q, qs⟩
    · exact absurd hq (lineSplit_ne_nil rest)
    · rw [show lineSplit ('\r' :: '\n' :: (rest ++ B))
            = [] :: lineSplit (rest ++ B) from rfl,
          show lineSplit ('\r' :: '\n' :: rest) = [] :: lineSplit rest
            from rfl, hq,
          show (([] :: q :: qs : List Str)).dropLast
            = [] :: (q :: qs).dropLast from by simp,
          getLastD_cons_of_ne_nil ([] : Str) [] (q :: qs) (by simp),
          ih, hq]
      rfl
  | case3 rest ih =>
    show lineSplit ('\n' :: (rest ++ B)) = _
    rcases hq : lineSplit rest with _ | ⟨q, qs⟩
    · exact absurd hq (lineSplit_ne_nil rest)
    · rw [show lineSplit ('\n' :: (rest ++ B))
            = [] :: lineSplit (rest ++ B) from rfl,
          show lineSplit ('\n' :: rest) = [] :: lineSplit rest from rfl, hq,
          show (([] :: q :: qs : List Str)).dropLast
            = [] :: (q :: qs).dropLast from by simp,
          getLastD_cons_of_ne_nil ([] : Str) [] (q :: qs) (by simp),
          ih, hq]
      rfl
  | case4 c rest h1 h2 ih =>
    have hcase := lineSplit_cons_case4 c rest h1 h2
    cases rest with
    | nil => simp [lineSplit, consHead]
    | cons r rs =>
      have hr : c = '\r' → r ≠ '\n' := by
        intro hc hr2
        exact h1 rs hc (by rw [hr2])
      have hL : lineSplit ((c :: r :: rs) ++ B)
          = consHead c (lineSplit ((r :: rs) ++ B)) := by
        show lineSplit (c :: (r :: rs ++ B)) = _
        apply lineSplit_cons_other c _ (fun hh => h2 hh)
        intro hc
        simp
        exact hr hc
      rw [hL, hcase, ih]
      rcases hq : lineSplit (r :: rs) with _ | ⟨q, qs⟩
      · exact absurd hq (lineSplit_ne_nil _)
      · cases qs with
        | nil =>
          have hqe : q = r :: rs := lineSplit_singleton hq
          have hR : lineSplit (c :: (q ++ B))
              = consHead c (lineSplit (q ++ B)) := by
            apply lineSplit_cons_other c _ (fun hh => h2 hh)
            intro hc
            rw [hqe]
            simp
            exact hr hc
          rw [show (([q] : List Str)).dropLast = [] from rfl,
            show (([q] : List Str)).getLastD [] = q from rfl,
            show consHead c [q] = [c :: q] from rfl,
            show (([c :: q] : List Str)).dropLast = [] from rfl,
            show (([c :: q] : List Str)).getLastD [] = c :: q from rfl,
            List.nil_append, List.nil_append,
            show (c :: q) ++ B = c :: (q ++ B) from rfl, hR]
        | cons q2 qs2 =>
          rw [consHead_cons,
            getLastD_cons_of_ne_nil (c :: q) [] (q2 :: qs2) (by simp),
            getLastD_cons_of_ne_nil q [] (q2 :: qs2) (by simp),
            List.dropLast_cons₂, List.dropLast_cons₂]
          rfl

theorem lineSplit_last_no_newline (s : Str) :
    '\n' ∉ (lineSplit s).getLastD [] := by
  induction s using lineSplit.induct with
  | case1 => simp [lineSplit]
  | case2 rest ih =>
    rcases hq : lineSplit rest with _ | ⟨q, qs⟩
    · exact absurd hq (lineSplit_ne_nil rest)
    · rw [hq] at ih
      rw [show lineSplit ('\r' :: '\n' :: rest) = [] :: lineSplit rest
          from rfl, hq,
        getLastD_cons_of_ne_nil ([] : Str) [] (q :: qs) (by simp)]
      exact ih
  | case3 rest ih =>
    rcases hq : lineSplit rest with _ | ⟨q, qs⟩
    · exact absurd hq (lineSplit_ne_nil rest)
    · rw [hq] at ih
      rw [show lineSplit ('\n' :: rest) = [] :: lineSplit rest from rfl, hq,
        getLastD_cons_of_ne_nil ([] : Str) [] (q :: qs) (by simp)]
      exact ih
  | case4 c rest h1 h2 ih =>
    rw [lineSplit_cons_case4 c rest h1 h2]
    rcases hq : lineSplit rest with _ | ⟨q, qs⟩
    · exact absurd hq (lineSplit_ne_nil rest)
    · rw [hq] at ih
      cases qs with
      | nil =>
        rw [show consHead c [q] = [c :: q] from rfl,
          show (([c :: q] : List Str)).getLastD [] = c :: q from rfl]
        simp at ih ⊢
        exact ⟨fun hh => h2 hh.symm, ih⟩
      | cons q2 qs2 =>
        rw [consHead_cons,
          getLastD_cons_of_ne_nil (c :: q) [] (q2 :: qs2) (by simp)]
        rw [getLastD_cons_of_ne_nil q [] (q2 :: qs2) (by simp)] at ih
        exact ih

theorem spec_of_no_newline {s : Str} (h : '\n' ∉ s) :
    specAfterLastNewline s = s := by
  induction s with
  | nil => rfl
  | cons c rest ih =>
    have hc : c ≠ '\n' := fun hh => h (by rw [hh]; exact List.mem_cons_self _ _)
    have hrest : '\n' ∉ rest := fun hh => h (List.mem_cons_of_mem _ hh)
    rw [specAfterLastNewline, if_neg hrest, if_neg hc]

theorem lineSplit_last_eq_spec (s : Str) :
    (lineSplit s).getLastD [] = specAfterLastNewline s := by
  induction s using lineSplit.induct with
  | case1 => rfl
  | case2 rest ih =>
    rcases hq : lineSplit rest with _ | ⟨q, qs⟩
    · exact absurd hq (lineSplit_ne_nil rest)
    · rw [hq] at ih
      rw [show lineSplit ('\r' :: '\n' :: rest) = [] :: lineSplit rest
          from rfl, hq,
        getLastD_cons_of_ne_nil ([] : Str) [] (q :: qs) (by simp), ih,
        show specAfterLastNewline ('\r' :: '\n' :: rest)
          = if '\n' ∈ ('\n' :: rest) then specAfterLastNewline ('\n' :: rest)
            else if '\r' = '\n' then '\n' :: rest else '\r' :: '\n' :: rest
          from rfl,
        if_pos (List.mem_cons_self '\n' rest),
        show specAfterLastNewline ('\n' :: rest)
          = if '\n' ∈ rest then specAfterLastNewline rest
            else if '\n' = '\n' then rest else '\n' :: rest from rfl]
      by_cases hmem : '\n' ∈ rest
      · rw [if_pos hmem]
      · rw [if_neg hmem, if_pos rfl, spec_of_no_newline hmem]
  | case3 rest ih =>
    rcases hq : lineSplit rest with _ | ⟨q, qs⟩
    · exact absurd hq (lineSplit_ne_nil rest)
    · rw [hq] at ih
      rw [show lineSplit ('\n' :: rest) = [] :: lineSplit rest from rfl, hq,
        getLastD_cons_of_ne_nil ([] : Str) [] (q :: qs) (by simp), ih,
        show specAfterLastNewline ('\n' :: rest)
          = if '\n' ∈ rest then specAfterLastNewline rest
            else if '\n' = '\n' then rest else '\n' :: rest from rfl]
      by_cases hmem : '\n' ∈ rest
      · rw [if_pos hmem]
      · rw [if_neg hmem, if_pos rfl, spec_of_no_newline hmem]
  | case4 c rest h1 h2 ih =>
    have hc : c ≠ '\n' := fun hh => h2 hh
    rw [lineSplit_cons_case4 c rest h1 h2]
    rcases hq : lineSplit rest with _ | ⟨q, qs⟩
    · exact absurd hq (lineSplit_ne_nil rest)
    · rw [hq] at ih
      cases qs with
      | nil =>
        have hqe : q = rest := lineSplit_singleton hq
        have hnn : '\n' ∉ rest := by
          have := lineSplit_last_no_newline rest
          rw [hq] at this
          simp at this
          rw [← hqe]
          exact this
        rw [show consHead c [q] = [c :: q] from rfl,
          show (([c :: q] : List Str)).getLastD [] = c :: q from rfl,
          specAfterLastNewline, if_neg hnn, if_neg hc, hqe]
      | cons q2 qs2 =>
        have hmem : '\n' ∈ rest := by
          by_contra hnn
          rw [lineSplit_of_no_newline hnn] at hq
          simp at hq
        rw [consHead_cons,
          getLastD_cons_of_ne_nil (c :: q) [] (q2 :: qs2) (by simp),
          specAfterLastNewline, if_pos hmem, ← ih,
          getLastD_cons_of_ne_nil q [] (q2 :: qs2) (by simp)]

theorem spec_ends_newline {s : Str} (h : s.getLast? = some '\n') :
    specAfterLastNewline s = [] := by
  induction s with
  | nil => simp at h
  | cons c rest ih =>
    cases rest with
    | nil =>
      simp at h
      rw [specAfterLastNewline, if_neg (by simp), if_pos h]
    | cons r rs =>
      rw [List.getLast?_cons_cons] at h
      have hmem : '\n' ∈ r :: rs := List.mem_of_mem_getLast? h
      rw [specAfterLastNewline, if_pos hmem]
      exact ih h

theorem lineSplit_reassemble (s : Str) :
    ∃ ds : List Str, ds.length = (lineSplit s).dropLast.length ∧
      (∀ d ∈ ds, d = ['\n'] ∨ d = ['\r', '\n']) ∧
      ((lineSplit s).dropLast.zipWith (· ++ ·) ds).flatten
        ++ (lineSplit s).getLastD [] = s := by
  induction s using lineSplit.induct with
  | case1 => exact ⟨[], by simp [lineSplit]⟩
  | case2 rest ih =>
    obtain ⟨ds, hlen, hmem, hsum⟩ := ih
    rcases hq : lineSplit rest with _ | ⟨q, qs⟩
    · exact absurd hq (lineSplit_ne_nil rest)
    · rw [hq] at hlen hsum
      refine ⟨['\r', '\n'] :: ds, ?_, ?_, ?_⟩
      · rw [show lineSplit ('\r' :: '\n' :: rest) = [] :: lineSplit rest
            from rfl, hq,
          show (([] :: q :: qs : List Str)).dropLast
            = [] :: (q :: qs).dropLast from by simp]
        simpa using hlen
      · intro d hd
        rcases List.mem_cons.mp hd with h | h
        · exact Or.inr h
        · exact hmem d h
      · rw [show lineSplit ('\r' :: '\n' :: rest) = [] :: lineSplit rest
            from rfl, hq,
          show (([] :: q :: qs : List Str)).dropLast
            = [] :: (q :: qs).dropLast from by simp,
          getLastD_cons_of_ne_nil ([] : Str) [] (q :: qs) (by simp),
          show List.zipWith (· ++ ·) ([] :: (q :: qs).dropLast)
              (['\r', '\n'] :: ds)
            = ([] ++ ['\r', '\n'])
              :: List.zipWith (· ++ ·) (q :: qs).dropLast ds from rfl]
        simp only [List.flatten_cons, List.nil_append, List.append_assoc]
        rw [hsum]
        rfl
  | case3 rest ih =>
    obtain ⟨ds, hlen, hmem, hsum⟩ := ih
    rcases hq : lineSplit rest with _ | ⟨q, qs⟩
    · exact absurd hq (lineSplit_ne_nil rest)
    · rw [hq] at hlen hsum
      refine ⟨['\n'] :: ds, ?_, ?_, ?_⟩
      · rw [show lineSplit ('\n' :: rest) = [] :: lineSplit rest from rfl, hq,
          show (([] :: q :: qs : List Str)).dropLast
            = [] :: (q :: qs).dropLast from by simp]
        simpa using hlen
      · intro d hd
        rcases List.mem_cons.mp hd with h | h
        · exact Or.inl h
        · exact hmem d h
      · rw [show lineSplit ('\n' :: rest) = [] :: lineSplit rest from rfl, hq,
          show (([] :: q :: qs : List Str)).dropLast
            = [] :: (q :: qs).dropLast from by simp,
          getLastD_cons_of_ne_nil ([] : Str) [] (q :: qs) (by simp),
          show List.zipWith (· ++ ·) ([] :: (q :: qs).dropLast) (['\n'] :: ds)
            = ([] ++ ['\n'])
              :: List.zipWith (· ++ ·) (q :: qs).dropLast ds from rfl]
        simp only [List.flatten_cons, List.nil_append, List.append_assoc]
        rw [hsum]
        rfl
  | case4 c rest h1 h2 ih =>
    obtain ⟨ds, hlen, hmem, hsum⟩ := ih
    rw [lineSplit_cons_case4 c rest h1 h2]
    rcases hq : lineSplit rest with _ | ⟨q, qs⟩
    · exact absurd hq (lineSplit_ne_nil rest)
    · rw [hq] at hlen hsum
      cases qs with
      | nil =>
        have hqe : q = rest := lineSplit_singleton hq
        refine ⟨[], by simp [consHead], by simp, ?_⟩
        rw [show consHead c [q] = [c :: q] from rfl]
        simp [hqe]
      | cons q2 qs2 =>
        rcases ds with _ | ⟨d, ds2⟩
        · simp at hlen
        · refine ⟨d :: ds2, ?_, hmem, ?_⟩
          · rw [consHead_cons, List.dropLast_cons₂]
            rw [List.dropLast_cons₂] at hlen
            simpa using hlen
          · rw [consHead_cons, List.dropLast_cons₂,
              getLastD_cons_of_ne_nil (c :: q) [] (q2 :: qs2) (by simp),
              show List.zipWith (· ++ ·) ((c :: q) :: (q2 :: qs2).dropLast)
                  (d :: ds2)
                = ((c :: q) ++ d)
                  :: List.zipWith (· ++ ·) (q2 :: qs2).dropLast ds2 from rfl]
            rw [List.dropLast_cons₂,
              getLastD_cons_of_ne_nil q [] (q2 :: qs2) (by simp),
              show List.zipWith (· ++ ·) (q :: (q2 :: qs2).dropLast)
                  (d :: ds2)
                = (q ++ d)
                  :: List.zipWith (· ++ ·) (q2 :: qs2).dropLast ds2 from rfl]
              at hsum
            simp only [List.flatten_cons, List.append_assoc] at hsum ⊢
            rw [show (c :: q) ++ (d ++ ((List.zipWith (· ++ ·)
                (q2 :: qs2).dropLast ds2).flatten
                  ++ (q2 :: qs2).getLastD []))
              = c :: (q ++ (d ++ ((List.zipWith (· ++ ·)
                (q2 :: qs2).dropLast ds2).flatten
                  ++ (q2 :: qs2).getLastD []))) from rfl, hsum]

theorem splitLines_append (x y buf : Str) :
    splitLines (x ++ y) buf
      = ((splitLines x buf).1 ++ (splitLines y (splitLines x buf).2).1,
         (splitLines y (splitLines x buf).2).2) := by
  show ((lineSplit (buf ++ (x ++ y))).dropLast,
      (lineSplit (buf ++ (x ++ y))).getLastD [])
    = ((lineSplit (buf ++ x)).dropLast
        ++ (lineSplit ((lineSplit (buf ++ x)).getLastD [] ++ y)).dropLast,
       (lineSplit ((lineSplit (buf ++ x)).getLastD [] ++ y)).getLastD [])
  rw [← List.append_assoc, lineSplit_append (buf ++ x) y,
    List.dropLast_append_of_ne_nil _ (lineSplit_ne_nil _),
    getLastD_append _ _ _ (lineSplit_ne_nil _)]

theorem feedChunks_eq (cs : List Str) (buf : Str) (h : '\n' ∉ buf) :
    feedChunks buf cs = splitLines cs.flatten buf := by
  induction cs generalizing buf with
  | nil =>
    rw [feedChunks]
    show ([], buf)
      = ((lineSplit (buf ++ [])).dropLast, (lineSplit (buf ++ [])).getLastD [])
    rw [List.append_nil, lineSplit_of_no_newline h]
    rfl
  | cons c cs ih =>
    have hb2 : '\n' ∉ (splitLines c buf).2 := by
      show '\n' ∉ (lineSplit (buf ++ c)).getLastD []
      exact lineSplit_last_no_newline (buf ++ c)
    simp only [feedChunks]
    rw [ih _ hb2, show (c :: cs).flatten = c ++ cs.flatten from rfl,
      splitLines_append c cs.flatten buf]

/-- C6: for every byte sequence and every placement of chunk boundaries
splitting it into inputs fed successively to the line framer, (a) the
emitted lines and final remainder equal those of the unchunked input
(chunking-invariance, which also makes the outcome independent of the
boundary placement), (b) the concatenation of the emitted lines with the
delimiters reinserted, followed by the remainder, equals the concatenation
of the input bytes, and (c) an input ending exactly on a delimiter leaves
the remainder equal to the empty string. -/
theorem c6_framer_chunking (cs : List Str) :
    feedChunks [] cs = splitLines cs.flatten []
    ∧ (∃ ds : List Str,
        ds.length = (splitLines cs.flatten []).1.length
        ∧ (∀ d ∈ ds, d = ['\n'] ∨ d = ['\r', '\n'])
        ∧ ((splitLines cs.flatten []).1.zipWith (· ++ ·) ds).flatten
            ++ (splitLines cs.flatten []).2 = cs.flatten)
    ∧ (cs.flatten.getLast? = some '\n' → (feedChunks [] cs).2 = []) := by
  have h1 : feedChunks [] cs = splitLines cs.flatten [] :=
    feedChunks_eq cs [] (by simp)
  refine ⟨h1, ?_, ?_⟩
  · obtain ⟨ds, hl, hm, hs⟩ := lineSplit_reassemble cs.flatten
    refine ⟨ds, ?_, hm, ?_⟩
    · show ds.length = (lineSplit ([] ++ cs.flatten)).dropLast.length
      rw [List.nil_append]
      exact hl
    · show ((lineSplit ([] ++ cs.flatten)).dropLast.zipWith (· ++ ·)
          ds).flatten ++ (lineSplit ([] ++ cs.flatten)).getLastD []
        = cs.flatten
      rw [List.nil_append]
      exact hs
  · intro hend
    rw [h1]
    show (lineSplit ([] ++ cs.flatten)).getLastD [] = []
    rw [List.nil_append, lineSplit_last_eq_spec, spec_ends_newline hend]

/-- C6 witness: a concrete chunking whose flattened input ends on a
delimiter, instantiating the chunking-invariance theorem and its
trailing-delimiter consequence. -/
theorem c6_framer_chunking_witness :
    feedChunks [] [['a', '\r'], ['\n', 'b', '\n']]
      = splitLines (([['a', '\r'], ['\n', 'b', '\n']] : List Str)).flatten []
    ∧ (feedChunks [] [['a', '\r'], ['\n', 'b', '\n']]).2 = [] :=
  ⟨(c6_framer_chunking [['a', '\r'], ['\n', 'b', '\n']]).1,
   (c6_framer_chunking [['a', '\r'], ['\n', 'b', '\n']]).2.2 (by decide)⟩

/-- C10: after every onREAD call, the retained framing buffer contains no
line delimiter (no newline, hence no delimiter, survives in it), the events
emitted are exactly one Raw event per complete delimiter-terminated line of
the old buffer plus the incoming data, in arrival order, and the new buffer
is exactly the text after the last newline of the old buffer plus data. -/
theorem c10_onread_buffer (buffer data : Str) :
    '\n' ∉ (onREAD data buffer).2
    ∧ (onREAD data buffer).1
        = (lineSplit (buffer ++ data)).dropLast.map
            (fun l => ("raw".data, ([V.s l] : List V)))
    ∧ (onREAD data buffer).2 = specAfterLastNewline (buffer ++ data) := by
  refine ⟨?_, rfl, ?_⟩
  · show '\n' ∉ (lineSplit (buffer ++ data)).getLastD []
    exact lineSplit_last_no_newline _
  · show (lineSplit (buffer ++ data)).getLastD []
      = specAfterLastNewline (buffer ++ data)
    exact lineSplit_last_eq_spec _

/-! ### Tokenization and string lemmas for the round-trip claims -/

theorem splitOnChar_append_sep (sep : Char) (A B : Str) (h : sep ∉ A) :
    splitOnChar sep (A ++ sep :: B) = A :: splitOnChar sep B := by
  induction A with
  | nil => simp [splitOnChar]
  | cons a A2 ih =>
    have ha : a ≠ sep := fun hh => h (by rw [hh]; exact List.mem_cons_self _ _)
    have hA2 : sep ∉ A2 := fun hh => h (List.mem_cons_of_mem _ hh)
    rw [List.cons_append, splitOnChar, if_neg (fun hh => ha hh), ih hA2,
      consHead_cons]

theorem splitOnChar_no_sep (sep : Char) (A : Str) (h : sep ∉ A) :
    splitOnChar sep A = [A] := by
  induction A with
  | nil => rfl
  | cons a A2 ih =>
    have ha : a ≠ sep := fun hh => h (by rw [hh]; exact List.mem_cons_self _ _)
    have hA2 : sep ∉ A2 := fun hh => h (List.mem_cons_of_mem _ hh)
    rw [splitOnChar, if_neg (fun hh => ha hh), ih hA2, consHead_cons]

theorem splitOnChar_ne_nil (sep : Char) (s : Str) :
    splitOnChar sep s ≠ [] := by
  induction s with
  | nil => simp [splitOnChar]
  | cons a rest ih =>
    rw [splitOnChar]
    split
    · simp
    · rcases hq : splitOnChar sep rest with _ | ⟨q, qs⟩
      · exact absurd hq ih
      · simp [consHead]

theorem joinWith_single (sep : Char) (p : Str) : joinWith sep [p] = p := rfl

theorem joinWith_cons2 (sep : Char) (p q : Str) (qs : List Str) :
    joinWith sep (p :: q :: qs) = p ++ sep :: joinWith sep (q :: qs) := rfl

theorem joinWith_splitOnChar (sep : Char) (s : Str) :
    joinWith sep (splitOnChar sep s) = s := by
  induction s with
  | nil => rfl
  | cons a rest ih =>
    rcases hq : splitOnChar sep rest with _ | ⟨q, qs⟩
    · exact absurd hq (splitOnChar_ne_nil sep rest)
    · rw [hq] at ih
      by_cases ha : a = sep
      · subst ha
        rw [splitOnChar, if_pos rfl, hq, joinWith_cons2, List.nil_append, ih]
      · rw [splitOnChar, if_neg ha, hq, consHead_cons]
        cases qs with
        | nil =>
          rw [joinWith_single] at ih
          rw [joinWith_single, ih]
        | cons q2 qs2 =>
          rw [joinWith_cons2] at ih
          rw [joinWith_cons2, List.cons_append, ih]

theorem strip_colon (s : Str) : strip (':' :: s) = s := rfl

theorem pyLower_colon_cons (s : Str) :
    pyLower (':' :: s) = ':' :: pyLower s := rfl

theorem sourceSplit_bare (s : Str) (h : '!' ∉ s) :
    sourceSplit s = (s, none, none) := by
  cases s with
  | nil => rfl
  | cons c0 rest =>
    have hc0 : c0 ≠ '!' := by
      intro hh
      apply h
      rw [hh]
      exact List.mem_cons_self _ _
    have h2 : ∀ j, (descRange rest.length).find?
        (fun i => decide (i < j) && (c0 :: rest)[i]?.getD ' ' == '!')
          = none := by
      intro j
      rw [List.find?_eq_none]
      intro i hi
      have hlen : i < (c0 :: rest).length := by
        have h3 := List.mem_range.mp (List.mem_reverse.mp hi)
        simp
        omega
      have hmem : ((c0 :: rest)[i]?.getD ' ') ∈ (c0 :: rest) := by
        rw [List.getElem?_eq_getElem hlen]
        exact List.getElem_mem _
      simp only [Bool.and_eq_true, beq_iff_eq, not_and, decide_eq_true_eq]
      intro _ heq
      exact h (heq ▸ hmem)
    rw [sourceSplit, if_neg hc0]
    cases hj : (descRange ((c0 :: rest).length - 1)).find?
        (fun j => (c0 :: rest).getD j ' ' == '@') with
    | none => rfl
    | some j => simp [h2]

theorem strip_no_colon (s : Str) (h : s.head? ≠ some ':') : strip s = s := by
  cases s with
  | nil => rfl
  | cons c cs =>
    have hc : c ≠ ':' := by
      intro hh
      exact h (by rw [hh]; rfl)
    simp [strip, hc]

/-- C7 amended: formatting and then parsing recovers the structured fields
for PRIVMSG, NOTICE, JOIN (single channel, no key), PART and QUIT, provided
a source prefix is given as a bare lower-case nick without spaces or bangs,
target and channel are lower-case single tokens (channel additionally
comma-free and not colon-initial), and no field contains a line delimiter
byte.  The NICK command of the original claim is excluded: its round trip
faults (see the counterexample). -/
theorem c7_roundtrip (src target channel msg : Str) (info : Info) (now : V)
    (hsrc : ' ' ∉ src ∧ '!' ∉ src ∧ pyLower src = src
      ∧ '\r' ∉ src ∧ '\n' ∉ src)
    (htgt : ' ' ∉ target ∧ pyLower target = target
      ∧ '\r' ∉ target ∧ '\n' ∉ target)
    (hch : ' ' ∉ channel ∧ pyLower channel = channel ∧ ',' ∉ channel
      ∧ channel.head? ≠ some ':' ∧ '\r' ∉ channel ∧ '\n' ∉ channel)
    (hmsg : '\r' ∉ msg ∧ '\n' ∉ msg) :
    onRAW info now (ircPRIVMSG target msg (some src))
      = .ok ([("message".data, [V.s src, V.s target, V.s msg])], info)
    ∧ onRAW info now (ircNOTICE target msg (some src))
      = .ok ([("notice".data, [V.s src, V.s target, V.s msg])], info)
    ∧ onRAW info now (ircJOIN channel none (some src))
      = .ok ([("join".data, [V.s src, V.s channel])], info)
    ∧ onRAW info now (ircPART channel msg (some src))
      = .ok ([("part".data, [V.s src, V.s channel, V.s msg])], info)
    ∧ onRAW info now (ircQUIT msg (some src))
      = .ok ([("quit".data, [V.s src, V.s msg])], info) := by
  obtain ⟨hsp, hbang, hlow, -, -⟩ := hsrc
  obtain ⟨htsp, htlow, -, -⟩ := htgt
  obtain ⟨hcsp, hclow, hccomma, hccolon, -, -⟩ := hch
  have hcolonsrc : ' ' ∉ (':' :: src) := by
    intro hh
    rcases List.mem_cons.mp hh with h | h
    · exact absurd h (by decide)
    · exact hsp h
  have hss : sourceSplit (strip (pyLower (':' :: src))) = (src, none, none) := by
    rw [pyLower_colon_cons, hlow, strip_colon, sourceSplit_bare _ hbang]
  have hchsplit : splitOnChar ',' (pyLower (strip channel)) = [channel] := by
    rw [strip_no_colon _ hccolon, hclow, splitOnChar_no_sep _ _ hccomma]
  refine ⟨?_, ?_, ?_, ?_, ?_⟩
  · have htoks : splitOnChar ' ' (ircPRIVMSG target msg (some src))
        = (':' :: src) :: "PRIVMSG".data :: target
            :: splitOnChar ' ' (':' :: msg) := by
      rw [show ircPRIVMSG target msg (some src)
          = (':' :: src) ++ ' ' :: ("PRIVMSG".data
              ++ ' ' :: (target ++ ' ' :: (':' :: msg)))
          from by simp [ircPRIVMSG],
        splitOnChar_append_sep ' ' _ _ hcolonsrc,
        splitOnChar_append_sep ' ' _ _ (by decide),
        splitOnChar_append_sep ' ' _ _ htsp]
    cases msg with
    | nil =>
      simp [onRAW, htoks, tok, bind, Except.bind, reMatchDigits, hss,
        joinWith_splitOnChar, strip_colon, htlow]
    | cons m ms =>
      simp [onRAW, htoks, tok, bind, Except.bind, reMatchDigits, hss,
        joinWith_splitOnChar, strip_colon, htlow]
  · have htoks : splitOnChar ' ' (ircNOTICE target msg (some src))
        = (':' :: src) :: "NOTICE".data :: target
            :: splitOnChar ' ' (':' :: msg) := by
      rw [show ircNOTICE target msg (some src)
          = (':' :: src) ++ ' ' :: ("NOTICE".data
              ++ ' ' :: (target ++ ' ' :: (':' :: msg)))
          from by simp [ircNOTICE],
        splitOnChar_append_sep ' ' _ _ hcolonsrc,
        splitOnChar_append_sep ' ' _ _ (by decide),
        splitOnChar_append_sep ' ' _ _ htsp]
    simp [onRAW, htoks, tok, bind, Except.bind, reMatchDigits, hss,
      joinWith_splitOnChar, strip_colon, htlow]
  · have htoks : splitOnChar ' ' (ircJOIN channel none (some src))
        = (':' :: src) :: "JOIN".data :: [channel] := by
      rw [show ircJOIN channel none (some src)
          = (':' :: src) ++ ' ' :: ("JOIN".data ++ ' ' :: channel)
          from by simp [ircJOIN],
        splitOnChar_append_sep ' ' _ _ hcolonsrc,
        splitOnChar_append_sep ' ' _ _ (by decide),
        splitOnChar_no_sep _ _ hcsp]
    simp [onRAW, htoks, tok, bind, Except.bind, reMatchDigits, hss, hchsplit]
  · have htoks : splitOnChar ' ' (ircPART channel msg (some src))
        = (':' :: src) :: "PART".data :: channel
            :: splitOnChar ' ' (':' :: msg) := by
      rw [show ircPART channel msg (some src)
          = (':' :: src) ++ ' ' :: ("PART".data
              ++ ' ' :: (channel ++ ' ' :: (':' :: msg)))
          from by simp [ircPART],
        splitOnChar_append_sep ' ' _ _ hcolonsrc,
        splitOnChar_append_sep ' ' _ _ (by decide),
        splitOnChar_append_sep ' ' _ _ hcsp]
    simp [onRAW, htoks, tok, bind, Except.bind, reMatchDigits, hss,
      joinWith_splitOnChar, strip_colon, strip_no_colon _ hccolon, hclow]
  · have htoks : splitOnChar ' ' (ircQUIT msg (some src))
        = (':' :: src) :: "QUIT".data :: splitOnChar ' ' (':' :: msg) := by
      rw [show ircQUIT msg (some src)
          = (':' :: src) ++ ' ' :: ("QUIT".data ++ ' ' :: (':' :: msg))
          from by simp [ircQUIT],
        splitOnChar_append_sep ' ' _ _ hcolonsrc,
        splitOnChar_append_sep ' ' _ _ (by decide)]
    simp [onRAW, htoks, tok, bind, Except.bind, reMatchDigits, hss,
      joinWith_splitOnChar, strip_colon]

/-- C7 counterexample: the claim as stated includes NICK, but formatting a
plain nick change with the NICK formatter produces the short form, and
parsing that line enters the server-NICK branch and raises IndexError on
the missing third token, emitting no event at all. -/
theorem c7_counterexample :
    ircNICK "kdb".data = .ok "NICK kdb".data
    ∧ onRAW info0 V.clock "NICK kdb".data = .error .indexError := by
  decide

/-- C7 witness: the round-trip theorem instantiated at concrete fields. -/
theorem c7_roundtrip_witness :
    onRAW info0 V.clock
        (ircPRIVMSG "#chan".data "Hello there".data (some "alice".data))
      = .ok ([("message".data,
          [V.s "alice".data, V.s "#chan".data, V.s "Hello there".data])],
        info0)
    ∧ onRAW info0 V.clock
        (ircNOTICE "#chan".data "Hello there".data (some "alice".data))
      = .ok ([("notice".data,
          [V.s "alice".data, V.s "#chan".data, V.s "Hello there".data])],
        info0)
    ∧ onRAW info0 V.clock (ircJOIN "#chan".data none (some "alice".data))
      = .ok ([("join".data, [V.s "alice".data, V.s "#chan".data])], info0)
    ∧ onRAW info0 V.clock
        (ircPART "#chan".data "Hello there".data (some "alice".data))
      = .ok ([("part".data,
          [V.s "alice".data, V.s "#chan".data, V.s "Hello there".data])],
        info0)
    ∧ onRAW info0 V.clock (ircQUIT "Hello there".data (some "alice".data))
      = .ok ([("quit".data, [V.s "alice".data, V.s "Hello there".data])],
        info0) :=
  c7_roundtrip "alice".data "#chan".data "#chan".data "Hello there".data
    info0 V.clock (by decide) (by decide) (by decide) (by decide)

/-- C1: the claim states that a welcome numeric whose message matches none
of the known greeting phrasings still emits the Numeric event and leaves
every SessionState field unchanged.  The code instead leaves the match
object as Python None after all three patterns fail and calls groupdict on
it, raising AttributeError: no Numeric event is emitted for such a line.
This theorem evaluates the parser at such a failing input. -/
theorem c1_welcome_mismatch_faults :
    onRAW info0 V.clock ":server.example 001 kdb :Hello".data
      = .error .attributeError := by
  decide

/-- C2: the claim states that a line matching a known command keyword with
too few tokens surfaces a reportable parse failure instead of an
out-of-range indexing fault.  The code indexes the token list without any
bounds check and raises IndexError; this theorem evaluates two such lines,
a bare PING (first-token keyword) and a prefixed PRIVMSG with no target
(second-token keyword). -/
theorem c2_short_line_index_fault :
    onRAW info0 V.clock "PING".data = .error .indexError
    ∧ onRAW info0 V.clock ":a!b@c PRIVMSG".data = .error .indexError := by
  decide

/-- C3: the claim states the extended NICK form is emitted exactly when all
seven optional fields are provided, and the short form otherwise.  The
reduce over the optional fields collapses to the test that name alone is
not None, so providing only name selects the extended branch, whose
percent-d formatting of the None idle raises TypeError instead of emitting
the short form; and providing everything except name yields the short form
even though six fields are present. -/
theorem c3_nick_guard_degenerates :
    ircNICK "kdb".data none none none none none none (some "James".data)
      = .error .typeError
    ∧ ircNICK "kdb".data (some 1) (some 2) (some "i".data) (some "h".data)
        (some "s".data) (some 3) none = .ok "NICK kdb".data := by
  decide

/-- C4: the claim states the MODE formatter writes one of the four MODE
wire strings.  Every branch of the source ircMODE calls ircMODE itself
instead of ircRAW, so the call recurses forever (RecursionError in Python)
and nothing is ever written, whatever the arguments and recursion depth.
-/
theorem c4_mode_never_writes (fuel : Nat) (modes : Str)
    (channel source : Option Str) :
    ircMODE fuel modes channel source = none := by
  induction fuel generalizing modes channel source with
  | zero => rfl
  | succ n ih =>
    cases source with
    | none =>
      cases channel with
      | none => exact ih _ _ _
      | some ch => exact ih _ _ _
    | some src =>
      cases channel with
      | none => exact ih _ _ _
      | some ch => exact ih _ _ _

/-- C8: the claim states a PRIVMSG whose text starts with the control byte
0x01 yields a Ctcp event, and gives the concrete VERSION example.  The
source tests message[0] == "", comparing a one-character string with the
empty string, which is never true, so the Ctcp branch is dead code and the
example line yields a Message event carrying the raw delimiter-wrapped
text. -/
theorem c8_ctcp_dead :
    onRAW info0 V.clock
        ":Alice!a@host PRIVMSG #chan :\x01VERSION\x01".data
      = .ok ([("message".data,
          [V.s "alice".data, V.s "#chan".data,
           V.s "\x01VERSION\x01".data])], info0) := by
  decide

/-- C5 counterexample: the second token 1a is not all digits, yet the
classification test accepts it (the regular expression match is anchored
only at the start), and the parser then enters the numeric branch where the
int conversion of 1a raises ValueError. -/
theorem c5_counterexample :
    reMatchDigits "1a".data = true
    ∧ "1a".data.all Char.isDigit = false
    ∧ onRAW info0 V.clock "x 1a y :z".data = .error .valueError := by
  decide

/-- C5 amended: a line is classified as a numeric reply exactly when its
second token is non-empty and begins with a decimal digit (rather than
consisting entirely of decimal digits, as the claim states). -/
theorem c5_amended (t : Str) :
    reMatchDigits t = true ↔ ∃ c cs, t = c :: cs ∧ c.isDigit = true := by
  cases t with
  | nil => simp [reMatchDigits]
  | cons c cs =>
    constructor
    · intro h
      exact ⟨c, cs, rfl, h⟩
    · rintro ⟨c1, cs1, heq, hd⟩
      cases heq
      exact hd

/-- C9 counterexample: a well-formed server NICK line yields a NewNick
event whose argument list has seven entries, not the eight fields of the
claim, and the hop-count token 2 appears in none of them. -/
theorem c9_counterexample :
    onRAW info0 V.clock "NICK kdb 5 99 jim host srv 2 :James Mills".data
      = .ok ([("newnick".data,
          [V.s "kdb".data, V.i 5, V.i 99, V.s "jim".data, V.s "host".data,
           V.s "srv".data, V.s "James Mills".data])], info0)
    ∧ ([V.s "kdb".data, V.i 5, V.i 99, V.s "jim".data, V.s "host".data,
        V.s "srv".data, V.s "James Mills".data] : List V).length = 7
    ∧ V.i 2 ∉ ([V.s "kdb".data, V.i 5, V.i 99, V.s "jim".data,
        V.s "host".data, V.s "srv".data,
        V.s "James Mills".data] : List V) := by
  decide

/-- C9 amended: a line whose first token is the literal NICK emits one
NewNick event carrying seven fields: nick, idle seconds and signon epoch
parsed as integers, ident, host and server lower-cased, and the trailing
real name colon-stripped; the hop-count token at position seven is parsed
over but not included in the event. -/
theorem c9_amended (info : Info) (now : V) (line : Str)
    (n i2 i3 t4 t5 t6 : Str) (rest : List Str) (a b : Int)
    (htoks : splitOnChar ' ' line
      = "NICK".data :: n :: i2 :: i3 :: t4 :: t5 :: t6 :: rest)
    (ha : pyInt i2 = .ok a) (hb : pyInt i3 = .ok b) :
    onRAW info now line
      = .ok ([("newnick".data,
          [V.s (pyLower n), V.i a, V.i b, V.s (pyLower t4), V.s (pyLower t5),
           V.s (pyLower t6), V.s (strip (joinWith ' ' (rest.drop 1)))])],
        info) := by
  simp [onRAW, htoks, tok, bind, Except.bind, ha, hb]

/-- C9 witness: the amended NewNick theorem instantiated at a concrete
extended NICK line. -/
theorem c9_amended_witness :
    onRAW info0 V.clock "NICK KdB 5 99 Jim Host Srv 2 :James Mills".data
      = .ok ([("newnick".data,
          [V.s (pyLower "KdB".data), V.i 5, V.i 99, V.s (pyLower "Jim".data),
           V.s (pyLower "Host".data), V.s (pyLower "Srv".data),
           V.s (strip (joinWith ' '
             ((["2".data, ":James".data, "Mills".data] : List Str).drop 1)))])],
        info0) :=
  c9_amended info0 V.clock _ "KdB".data "5".data "99".data "Jim".data
    "Host".data "Srv".data ["2".data, ":James".data, "Mills".data] 5 99
    (by decide) (by decide) (by decide)
